import Mathlib

/-!
Verification of the SpineLayout animation-orchestration engine
(repository CyberDex/game-utils, most evolved variant in src/unnamed/part_004).

The engine is shallowly embedded: JavaScript `Map` objects become
association lists with unique keys (`alGet`/`alSet`/`alDelete` mirror
`Map.get`/`Map.set`/`Map.delete`, insertion order preserved), strings are
Lean `String`s whose manipulation is implemented on the underlying
character list so that every definition is executable, promises become
explicit resolution times (`Option Nat`, `none` meaning "never resolves"),
and calls into the external Skeletal Runtime (`setAnimation`, diagnostics
printed via `console.error` / `console.warn`) are recorded as traces.
-/

/-- JavaScript `sub.isPrefixOf`-style check used to build `s.includes(sub)` and
`s.split(sub)[0]`: returns the characters of `s` strictly before the first
occurrence of `sub`, or `none` when `sub` does not occur in `s`. -/
def splitBeforeL (sub : List Char) : List Char → Option (List Char)
  | [] => if sub.isEmpty then some [] else none
  | c :: t => if sub.isPrefixOf (c :: t) then some [] else (splitBeforeL sub t).map (c :: ·)

/-- JavaScript `s.includes(sub)`. -/
def stringIncludes (s sub : String) : Bool := (splitBeforeL sub.data s.data).isSome

/-- JavaScript `s.split(sub)[0]` (the part of `s` before the first occurrence of
`sub`; the whole string when `sub` does not occur). -/
def splitFirst (s sub : String) : String :=
  match splitBeforeL sub.data s.data with
  | some p => String.mk p
  | none => s

/-- JavaScript `s.startsWith(pre)`. -/
def strStartsWith (s pre : String) : Bool := pre.data.isPrefixOf s.data

/-- Drop the first `n` characters of a string (used to model
`s.replace(pre, '')` when `s` is known to start with the prefix `pre` of
length `n`, since `String.replace` replaces the first occurrence, which is
then at position 0). -/
def strDropChars (s : String) (n : Nat) : String := String.mk (s.data.drop n)

/-- JavaScript `s.split(c)[0]`: everything before the first occurrence of the
separator character. -/
def strTakeBefore (s : String) (c : Char) : String :=
  String.mk (s.data.takeWhile (fun d => d ≠ c))

/-- Association-list rendition of `Map.get`: value of the first entry with the
given key. -/
def alGet {α : Type} : List (String × α) → String → Option α
  | [], _ => none
  | (k, v) :: rest, key => if k = key then some v else alGet rest key

/-- Association-list rendition of `Map.set`: replace the value in place when
the key is present (JavaScript `Map.set` keeps insertion order), otherwise
append a fresh entry at the end. -/
def alSet {α : Type} : List (String × α) → String → α → List (String × α)
  | [], key, v => [(key, v)]
  | (k, w) :: rest, key, v => if k = key then (k, v) :: rest else (k, w) :: alSet rest key v

/-- Association-list rendition of `Map.delete`: remove the entry carrying the
key (a JavaScript `Map` holds at most one entry per key). -/
def alDelete {α : Type} : List (String × α) → String → List (String × α)
  | [], _ => []
  | (k, w) :: rest, key => if k = key then alDelete rest key else (k, w) :: alDelete rest key

theorem alGet_set_self {α : Type} (m : List (String × α)) (k : String) (v : α) :
    alGet (alSet m k v) k = some v := by
  induction m with
  | nil => simp [alSet, alGet]
  | cons p rest ih =>
    obtain ⟨k0, w⟩ := p
    by_cases h : k0 = k <;> simp [alSet, alGet, h, ih]

theorem alGet_set_ne {α : Type} (m : List (String × α)) (k key : String) (v : α)
    (h : key ≠ k) : alGet (alSet m k v) key = alGet m key := by
  have hk : k ≠ key := Ne.symm h
  induction m with
  | nil => simp [alSet, alGet, hk]
  | cons p rest ih =>
    obtain ⟨k0, w⟩ := p
    by_cases h0 : k0 = k
    · subst h0
      simp [alSet, alGet, hk]
    · simp only [alSet, if_neg h0, alGet]
      by_cases h1 : k0 = key <;> simp [h1, ih]

theorem alSet_of_get_none {α : Type} (m : List (String × α)) (k : String) (v : α)
    (h : alGet m k = none) : alSet m k v = m ++ [(k, v)] := by
  induction m with
  | nil => simp [alSet]
  | cons p rest ih =>
    obtain ⟨k0, w⟩ := p
    by_cases h0 : k0 = k
    · simp [alGet, h0] at h
    · simp [alGet, h0] at h
      simp [alSet, h0, ih h]

theorem alGet_delete_self {α : Type} (m : List (String × α)) (k : String) :
    alGet (alDelete m k) k = none := by
  induction m with
  | nil => simp [alDelete, alGet]
  | cons p rest ih =>
    obtain ⟨k0, w⟩ := p
    by_cases h0 : k0 = k <;> simp [alDelete, alGet, h0, ih]

theorem alGet_delete_ne {α : Type} (m : List (String × α)) (k key : String)
    (h : key ≠ k) : alGet (alDelete m k) key = alGet m key := by
  have hk : k ≠ key := Ne.symm h
  induction m with
  | nil => simp [alDelete, alGet]
  | cons p rest ih =>
    obtain ⟨k0, w⟩ := p
    by_cases h0 : k0 = k
    · subst h0
      simp [alDelete, alGet, hk, ih]
    · simp only [alDelete, if_neg h0, alGet]
      by_cases h1 : k0 = key <;> simp [h1, ih]

theorem alGet_eq_none_of_fresh {α : Type} (m : List (String × α)) (k : String)
    (h : ∀ p ∈ m, p.1 ≠ k) : alGet m k = none := by
  induction m with
  | nil => rfl
  | cons p rest ih =>
    obtain ⟨k0, w⟩ := p
    have hk0 : k0 ≠ k := h (k0, w) (by simp)
    simp only [alGet, if_neg hk0]
    exact ih fun q hq => h q (by simp [hq])

/-- The modifier tokens of the Name Codec, in the declaration order of the
source's `modificators` object (`Object.values` iterates in insertion order):
`_next`, `_loop`, `_speed_`, `_speedX_`, `_speedY_`. -/
def modificators : List String := ["_next", "_loop", "_speed_", "_speedX_", "_speedY_"]

/-- `stripModificators` from the source: find the first declared modifier token
that occurs anywhere in the name and keep only the part of the name before its
first occurrence; a name containing no modifier token is returned unchanged. -/
def stripModificators (animationName : String) : String :=
  match modificators.find? (fun m => stringIncludes animationName m) with
  | some m => splitFirst animationName m
  | none => animationName

/-- The reserved state prefix `folderPointers.state`. -/
def folderPointerState : String := "state_"

/-- `getStateName` from the source: split the animation name on `/`, and when
the first segment starts with `state_`, return that segment with the prefix
removed (possibly the empty string); otherwise `none` (`undefined`). -/
def getStateName (animationName : String) : Option String :=
  let first := strTakeBefore animationName '/'
  if strStartsWith first folderPointerState then some (strDropChars first 6) else none

/-- A loaded Spine rig as the engine sees it: its clip names
(`spine.state.data.skeletonData.animations`) and its slot names
(`spine.state.data.skeletonData.slots`). -/
structure SpineRig where
  animations : List String
  slots : List String
deriving DecidableEq

/-- The mutable state of the `SpineLayout` class: the five `Map` fields plus
the `texts` map and the container's child list. -/
structure SpineLayout where
  spines : List (String × SpineRig)
  animations : List (String × List (String × List String))
  statesAnimations : List (String × List String)
  activeAnimations : List (String × List (String × Nat))
  loopingAnimations : List (String × List (String × Nat))
  texts : List (String × String)
  children : List String
deriving DecidableEq

/-- A freshly constructed layout: every map empty, no children. -/
def emptySpineLayout : SpineLayout := ⟨[], [], [], [], [], [], []⟩

/-- The registry-push tail of the per-animation loop in `addSpineInstance`:
`this.animations.get(noModAnimation)?.get(spineID) ?? []`, push the raw name,
`this.animations.get(noModAnimation)?.set(spineID, ...)` (the optional chain is
a no-op when the base entry is absent). -/
def pushRegistry (e : SpineLayout) (spineID noMod animation : String) : SpineLayout :=
  match alGet e.animations noMod with
  | none => e
  | some inner =>
    let lst := (alGet inner spineID).getD []
    { e with animations := alSet e.animations noMod (alSet inner spineID (lst ++ [animation])) }

/-- One iteration of the `animations.forEach` loop in `addSpineInstance`:
ensure the stripped base name has a registry entry, record state-group
membership for `state_`-prefixed raw names (skipping the animation entirely,
with a warning, when the state name is falsy — `undefined` or the empty
string), then append the raw name to this rig's list under the base name. -/
def registerAnimation (spineID : String) (e : SpineLayout) (animation : String) : SpineLayout :=
  let noMod := stripModificators animation
  let e1 := if (alGet e.animations noMod).isSome then e
            else { e with animations := alSet e.animations noMod [] }
  if strStartsWith animation folderPointerState then
    match getStateName noMod with
    | none => e1
    | some s =>
      if s = "" then e1
      else
        let sa := (alGet e1.statesAnimations s).getD []
        let sa2 := if sa.contains noMod then sa else sa ++ [noMod]
        let e2 := { e1 with statesAnimations := alSet e1.statesAnimations s sa2 }
        pushRegistry e2 spineID noMod animation
  else pushRegistry e1 spineID noMod animation

/-- `addSpineInstance` from the source: a rig already registered under the same
`spineID` is destroyed and deleted from `spines`, the new rig is stored, and
every clip name of the new rig is pushed through `registerAnimation`.  Nothing
is removed from `animations` or `statesAnimations` for the old rig. -/
def addSpineInstance (e : SpineLayout) (spineID : String) (spine : SpineRig) : SpineLayout :=
  let e0 := if (alGet e.spines spineID).isSome
            then { e with spines := alDelete e.spines spineID } else e
  let e1 := { e0 with spines := alSet e0.spines spineID spine }
  spine.animations.foldl (registerAnimation spineID) e1

/-- `addActiveAnimation` from the source. -/
def addActiveAnimation (e : SpineLayout) (spineID animation : String) (trackID : Nat) :
    SpineLayout :=
  let tracks := (alGet e.activeAnimations spineID).getD []
  { e with activeAnimations := alSet e.activeAnimations spineID (alSet tracks animation trackID) }

/-- `addLoopingAnimation` from the source. -/
def addLoopingAnimation (e : SpineLayout) (spineID animation : String) (trackID : Nat) :
    SpineLayout :=
  let tracks := (alGet e.loopingAnimations spineID).getD []
  { e with loopingAnimations := alSet e.loopingAnimations spineID (alSet tracks animation trackID) }

/-- `removeActiveAnimation` from the source: when the clip is booked in the
rig's active map, delete it (and write the map back); otherwise no effect. -/
def removeActiveAnimation (e : SpineLayout) (spineID animation : String) : SpineLayout :=
  let tracks := (alGet e.activeAnimations spineID).getD []
  if (alGet tracks animation).isSome then
    { e with activeAnimations := alSet e.activeAnimations spineID (alDelete tracks animation) }
  else e

/-- `removeLoopingAnimation` from the source. -/
def removeLoopingAnimation (e : SpineLayout) (spineID animation : String) : SpineLayout :=
  let tracks := (alGet e.loopingAnimations spineID).getD []
  if (alGet tracks animation).isSome then
    { e with loopingAnimations := alSet e.loopingAnimations spineID (alDelete tracks animation) }
  else e

/-- A `setAnimation(trackID, animation, loop)` call issued to the Skeletal
Runtime for a given rig: (spineID, trackID, animation, loop). -/
abbrev SetTrackCall := String × Nat × String × Bool

/-- How a single `playInstanceAnimation` call returned: early return with a
diagnostic because the rig is unknown, an immediately resolved
`Promise.resolve()` because the clip passed the already-playing test, or a
started clip on the given track. -/
inductive PlayOutcome where
  | missingRig
  | alreadyPlaying
  | started (trackID : Nat) (loop : Bool)
deriving DecidableEq

/-- Result of one `playInstanceAnimation` call: the updated engine state, the
outcome, the `setAnimation` calls issued and the diagnostics printed. -/
structure PlayResult where
  state : SpineLayout
  outcome : PlayOutcome
  setTrackCalls : List SetTrackCall
  diagnostics : List String
deriving DecidableEq

/-- JavaScript truthiness of `this.activeAnimations.get(spineID)?.get(animation)`:
a missing entry is `undefined` (falsy) and a track id of `0` is falsy too. -/
def truthyTrack : Option Nat → Bool
  | some t => t != 0
  | none => false

/-- `playInstanceAnimation` from the source, up to the point where the
completion listener is registered: filter the modifier tokens occurring in the
raw name, fail fast (with a `console.error`) when the rig is unknown, return an
already-resolved promise when the truthiness test on the active map passes,
otherwise compute the track id as `|active| + |looping|` for this rig, issue
`setAnimation(trackID, animation, loop)` and book the clip in the looping or
active map.  The completion listener itself is modelled by
`completeInstanceAnimation`. -/
def playInstanceAnimation (e : SpineLayout) (spineID animation : String) : PlayResult :=
  let mod := modificators.filter (fun m => stringIncludes animation m)
  match alGet e.spines spineID with
  | none => ⟨e, .missingRig, [], ["Spine " ++ spineID ++ " not found"]⟩
  | some _ =>
    if truthyTrack (alGet ((alGet e.activeAnimations spineID).getD []) animation) then
      ⟨e, .alreadyPlaying, [], []⟩
    else
      let loop := mod.contains "_loop"
      let activeCount := ((alGet e.activeAnimations spineID).getD []).length
      let loopingCount := ((alGet e.loopingAnimations spineID).getD []).length
      let trackID := activeCount + loopingCount
      let e1 := if loop then addLoopingAnimation e spineID animation trackID
                else addActiveAnimation e spineID animation trackID
      ⟨e1, .started trackID loop, [(spineID, trackID, animation, loop)], []⟩

/-- Result of an operation that runs several plays: the final engine state, the
`setAnimation` calls issued (in order) and the diagnostics printed. -/
structure RunResult where
  state : SpineLayout
  setTrackCalls : List SetTrackCall
  diagnostics : List String
deriving DecidableEq

/-- The (rigID, raw clip name) pairs over which `playAnimationByName` fans out:
the registry entry of the base name, flattened in `Map` insertion order; empty
when the base name is unknown. -/
def playAnimationByNameInvocations (e : SpineLayout) (animationName : String) :
    List (String × String) :=
  ((alGet e.animations animationName).getD []).flatMap (fun p => p.2.map (fun a => (p.1, a)))

/-- `playAnimationByName` from the source, as a state transformer: the nested
`forEach` loops call `playInstanceAnimation` synchronously for every
(rigID, raw name) pair of the registry entry; an unknown base name finds no
entry and performs no call (and prints nothing). -/
def playAnimationByNameRun (e : SpineLayout) (animationName : String) : RunResult :=
  (playAnimationByNameInvocations e animationName).foldl
    (fun acc inv =>
      let r := playInstanceAnimation acc.state inv.1 inv.2
      ⟨r.state, acc.setTrackCalls ++ r.setTrackCalls, acc.diagnostics ++ r.diagnostics⟩)
    ⟨e, [], []⟩

/-- The base-name members of a state group (`this.statesAnimations.get(stateName)`),
empty when the state is unknown. -/
def playStateMembers (e : SpineLayout) (stateName : String) : List String :=
  (alGet e.statesAnimations stateName).getD []

/-- `playState` from the source, as a state transformer: for every member base
name of the state group, fan out over its registry entry exactly as
`playAnimationByName` does; an unknown state finds no members and performs no
call (and prints nothing). -/
def playStateRun (e : SpineLayout) (stateName : String) : RunResult :=
  (playStateMembers e stateName).foldl
    (fun acc m =>
      let r := playAnimationByNameRun acc.state m
      ⟨r.state, acc.setTrackCalls ++ r.setTrackCalls, acc.diagnostics ++ r.diagnostics⟩)
    ⟨e, [], []⟩

/-- Word characters of the JavaScript regex class `\w`: letters, digits and
the underscore. -/
def isWordChar (c : Char) : Bool := c.isAlphanum || c = '_'

/-- The literal `next_` searched by the regex `/next_(\w+)_?/`. -/
def nextMarker : List Char := ['n', 'e', 'x', 't', '_']

/-- Matching of the regex `/next_(\w+)_?/` against a character list: find the
first position where the literal `next_` is followed by at least one word
character, and capture the maximal word-character run after the literal (the
greedy `\w+`; the trailing `_?` matches the empty string and contributes
nothing to the capture, because `_` is itself a word character). -/
def parseNextL : List Char → Option (List Char)
  | [] => none
  | c :: rest =>
    if nextMarker.isPrefixOf (c :: rest)
        && !(((c :: rest).drop 5).takeWhile isWordChar).isEmpty then
      some (((c :: rest).drop 5).takeWhile isWordChar)
    else parseNextL rest

/-- `animation.match(/next_(\w+)_?/)?.[1]`: the chained-next target extracted
from a raw clip name. -/
def parseNext (animation : String) : Option String := (parseNextL animation.data).map String.mk

/-- The completion listener registered by `playInstanceAnimation`, together
with its `.then` chain: when the Skeletal Runtime fires `complete` for this
rig, the listener calls `removeActiveAnimation(spineID, animation)` and
resolves the completion promise; the `.then` continuation then calls
`playAnimationByName(nextAnimation)` when the raw name carried a `_next`
modifier (the target recomputed by `parseNext` is exactly the `nextAnimation`
the closure captured). -/
def completeInstanceAnimation (e : SpineLayout) (spineID animation : String) : RunResult :=
  let e1 := removeActiveAnimation e spineID animation
  let nextAnimation := if stringIncludes animation "_next" then parseNext animation else none
  match nextAnimation with
  | some n => playAnimationByNameRun e1 n
  | none => ⟨e1, [], []⟩

/-- The engine-state effect of `stopAnimation` from the source: unknown rig is
a diagnosed no-op; otherwise the clip is removed from the looping map and then
from the active map (the `clearTrack` calls go to the Skeletal Runtime and do
not touch the engine state). -/
def stopAnimationState (e : SpineLayout) (spineID animation : String) : SpineLayout :=
  match alGet e.spines spineID with
  | none => e
  | some _ => removeActiveAnimation (removeLoopingAnimation e spineID animation) spineID animation

/-- `stopAll` from the source: for every registered rig, clear its runtime
tracks and delete its entries from both bookkeeping maps. -/
def stopAll (e : SpineLayout) : SpineLayout :=
  e.spines.foldl
    (fun acc p =>
      { acc with
        activeAnimations := alDelete acc.activeAnimations p.1
        loopingAnimations := alDelete acc.loopingAnimations p.1 })
    e

/-- `reset` from the source: destroy every rig, clear `spines`, `animations`
and `texts`, and remove all children.  `statesAnimations`,
`activeAnimations` and `loopingAnimations` are not touched. -/
def reset (e : SpineLayout) : SpineLayout :=
  { e with spines := [], animations := [], texts := [], children := [] }

/-- `getAnimations` from the source: the registry's base-name keys. -/
def getAnimations (e : SpineLayout) : List String := e.animations.map Prod.fst

/-- `getAnimationsStates` from the source: the state-group keys. -/
def getAnimationsStates (e : SpineLayout) : List String := e.statesAnimations.map Prod.fst

/-- `attachTexts` from the source: for every rig and every slot whose name
starts with `text_`, store a fresh `Text` object (modelled as an empty string)
under the slot name with the `text_` marker removed. -/
def attachTexts (e : SpineLayout) : SpineLayout :=
  { e with
    texts := e.spines.foldl
      (fun ts p => p.2.slots.foldl
        (fun ts2 slot =>
          if strStartsWith slot "text_" then alSet ts2 (strDropChars slot 5) "" else ts2)
        ts)
      e.texts }

/-- A rig is attached into some other rig's socket when any registered rig has
a slot named `spine_` followed by this rig's id. -/
def isSlotChild (e : SpineLayout) (id : String) : Bool :=
  e.spines.any (fun p => p.2.slots.contains ("spine_" ++ id))

/-- `attachBones` from the source, restricted to its effect on the scene tree:
rigs that end up with no parent (not attached into any `spine_` socket and not
already a child of the container) are added as container children. -/
def attachBones (e : SpineLayout) : SpineLayout :=
  { e with
    children := e.children ++
      (e.spines.map Prod.fst).filter
        (fun id => !(isSlotChild e id) && !(e.children.contains id)) }

/-- The data handed to `createInstanceFromData`: the atlas text (only its
prefix before the first `.` matters to the engine, as the rig id), the page
names the atlas parses into, the keys of the supplied textures record, and the
skeleton's clip and slot names (what the constructed rig will expose). -/
structure SpineInstanceData where
  atlasText : String
  pages : List String
  textures : List String
  skeletonAnimations : List String
  skeletonSlots : List String
deriving DecidableEq

/-- `createInstanceFromData` from the source: walk the atlas pages in order
and throw `Missing texture for page: <page>` at the first page with no
matching texture — before any engine map is touched; otherwise register the
new rig via `addSpineInstance` under `data.atlasText.split('.')[0]` and, unless
`skipAttachBones` is set, rebuild bone and text attachments. -/
def createInstanceFromData (e : SpineLayout) (data : SpineInstanceData)
    (skipAttachBones : Bool) : Except String SpineLayout :=
  match data.pages.find? (fun p => !(data.textures.contains p)) with
  | some p => .error ("Missing texture for page: " ++ p)
  | none =>
    let spineID := strTakeBefore data.atlasText '.'
    let e1 := addSpineInstance e spineID ⟨data.skeletonAnimations, data.skeletonSlots⟩
    .ok (if skipAttachBones then e1 else attachTexts (attachBones e1))

/-- `createInstancesFromDataArray` from the source: `data.forEach` creates the
rigs one by one (with bone attachment deferred); an exception thrown inside the
`forEach` callback aborts the whole loop, so the remaining entries are never
created and the trailing `attachBones`/`attachTexts` never run.  The pair
returned is the engine state when the call exits together with the error
message when it exits by throwing. -/
def createInstancesFromDataArray (e : SpineLayout) :
    List SpineInstanceData → SpineLayout × Option String
  | [] => (attachTexts (attachBones e), none)
  | d :: rest =>
    match createInstanceFromData e d true with
    | .error msg => (e, some msg)
    | .ok e1 => createInstancesFromDataArray e1 rest

/-- `Promise.all` over the resolution times of a list of promises: a promise
resolving at time `t` is `some t`, a promise that never resolves is `none`.
The join resolves exactly when the last member resolves (the maximum), and
never resolves if any member never resolves; an empty fan-out resolves
immediately (time 0).  `joinTwo` joins two resolution times. -/
def joinTwo : Option Nat → Option Nat → Option Nat
  | some a, some b => some (max a b)
  | some _, none => none
  | none, _ => none

def joinAll : List (Option Nat) → Option Nat
  | [] => some 0
  | t :: rest => joinTwo t (joinAll rest)

/-- Resolution time of the promise returned by `playAnimationByName(base)`,
given an assignment `τ` of resolution times to the per-(rigID, raw name)
invocation promises of its fan-out: the `await Promise.all(animationsPromises)`
join over that fan-out. -/
def playAnimationByNameTime (e : SpineLayout) (animationName : String)
    (τ : String × String → Option Nat) : Option Nat :=
  joinAll ((playAnimationByNameInvocations e animationName).map τ)

/-- Resolution time of the promise returned by `playState(stateName)`: the
`await Promise.all` join over the invocation promises that every member base
name of the state group contributes. -/
def playStateTime (e : SpineLayout) (stateName : String)
    (τ : String × String → Option Nat) : Option Nat :=
  joinAll
    (((playStateMembers e stateName).flatMap (playAnimationByNameInvocations e)).map τ)

/-- One event in a `playAnimationsQueue` run: a queue entry dispatched to
`playState` (with the extracted state name) or to `playAnimationByName`,
carrying its dispatch time and the time its completion promise resolves, or an
entry skipped with the `console.warn` diagnostic (at the time it was
considered). -/
inductive QueueEvent where
  | stateDispatch (stateName : String) (start finish : Nat)
  | baseDispatch (animationName : String) (start finish : Nat)
  | skipWarn (entry : String) (time : Nat)
deriving DecidableEq

/-- The time at which a queue event is dispatched. -/
def eventStart : QueueEvent → Nat
  | .stateDispatch _ s _ => s
  | .baseDispatch _ s _ => s
  | .skipWarn _ t => t

/-- The time at which the engine is done with a queue event (for dispatches,
when the awaited completion promise resolves; a skip takes no time). -/
def eventEnd : QueueEvent → Nat
  | .stateDispatch _ _ f => f
  | .baseDispatch _ _ f => f
  | .skipWarn _ t => t

/-- `playAnimationsQueue` from the source, as a timed trace: the `for ... of`
loop takes each entry in order; an entry starting with `state_` is dispatched
to `playState` with its extracted state name unless that name is falsy
(`undefined` or empty), in which case the entry is skipped with a
`console.warn` and the loop continues; every other entry is dispatched to
`playAnimationByName`.  Each dispatch is `await`ed, so the next entry starts
exactly when the previous completion resolves; the oracles give the duration
of each awaited completion. -/
def playAnimationsQueueTrace (stateDur baseDur : String → Nat) :
    Nat → List String → List QueueEvent
  | _, [] => []
  | t, entry :: rest =>
    if strStartsWith entry folderPointerState then
      match getStateName entry with
      | some s =>
        if s = "" then
          .skipWarn entry t :: playAnimationsQueueTrace stateDur baseDur t rest
        else
          .stateDispatch s t (t + stateDur s) ::
            playAnimationsQueueTrace stateDur baseDur (t + stateDur s) rest
      | none => .skipWarn entry t :: playAnimationsQueueTrace stateDur baseDur t rest
    else
      .baseDispatch entry t (t + baseDur entry) ::
        playAnimationsQueueTrace stateDur baseDur (t + baseDur entry) rest

/-- How `playAnimationsQueue` must route one queue entry, as a relation
between the entry and the trace event it produces. -/
def routesEntry (stateDur baseDur : String → Nat) (entry : String) (ev : QueueEvent) : Prop :=
  if strStartsWith entry folderPointerState then
    match getStateName entry with
    | some s =>
      if s = "" then ∃ t, ev = .skipWarn entry t
      else ∃ t, ev = .stateDispatch s t (t + stateDur s)
    | none => ∃ t, ev = .skipWarn entry t
  else ∃ t, ev = .baseDispatch entry t (t + baseDur entry)

/-- The states of the Playback Engine reachable through its public operations:
the fresh layout, rig registration, single-clip play, explicit stop, stop-all
and reset.  A Skeletal Runtime completion event is deliberately not a step of
this relation: the `complete` handlers registered by successive plays
accumulate on the rig's animation state and all fire together on each
completion event, so a completion never releases a single clip's bookkeeping
in isolation — the explicit `stopAnimation` operation is the program's way of
releasing one clip while others keep playing, and it is included.  Every
constructor below is a verbatim public operation of the engine, so every
state in this relation is a state the program can actually be in. -/
inductive Reachable : SpineLayout → Prop where
  | init : Reachable emptySpineLayout
  | addSpine {e : SpineLayout} (spineID : String) (spine : SpineRig) :
      Reachable e → Reachable (addSpineInstance e spineID spine)
  | play {e : SpineLayout} (spineID animation : String) :
      Reachable e → Reachable (playInstanceAnimation e spineID animation).state
  | stop {e : SpineLayout} (spineID animation : String) :
      Reachable e → Reachable (stopAnimationState e spineID animation)
  | stopAllStep {e : SpineLayout} : Reachable e → Reachable (stopAll e)
  | resetStep {e : SpineLayout} : Reachable e → Reachable (reset e)

/-- The clip-to-track bookkeeping a rig holds at a given moment: its active
map followed by its looping map. -/
def combinedTracks (e : SpineLayout) (spineID : String) : List (String × Nat) :=
  (alGet e.activeAnimations spineID).getD [] ++ (alGet e.loopingAnimations spineID).getD []

/-- Track indices within one rig are pairwise distinct among the
simultaneously booked (active + looping) clips. -/
def TracksDistinct (e : SpineLayout) : Prop :=
  ∀ spineID, ((combinedTracks e spineID).map Prod.snd).Nodup

theorem splitBeforeL_length (sub : List Char) (hsub : sub ≠ []) :
    ∀ s p, splitBeforeL sub s = some p → p.length < s.length := by
  intro s
  induction s with
  | nil =>
    intro p h
    have hne : sub.isEmpty = false := by
      cases sub with
      | nil => exact absurd rfl hsub
      | cons a l => rfl
    simp [splitBeforeL, hne] at h
  | cons c t ih =>
    intro p h
    by_cases hp : sub.isPrefixOf (c :: t)
    · simp only [splitBeforeL, if_pos hp, Option.some.injEq] at h
      subst h
      simp
    · simp only [splitBeforeL, if_neg hp, Option.map_eq_some'] at h
      obtain ⟨q, hq, rfl⟩ := h
      have := ih q hq
      simpa using Nat.succ_lt_succ this

theorem stripModificators_fixed_iff (s : String) :
    stripModificators s = s ↔ ∀ m ∈ modificators, stringIncludes s m = false := by
  cases hf : modificators.find? (fun m => stringIncludes s m) with
  | none =>
    have hall : ∀ m ∈ modificators, stringIncludes s m = false := by
      have h2 := List.find?_eq_none.mp hf
      intro m hm
      simpa using h2 m hm
    constructor
    · intro _
      exact hall
    · intro _
      simp [stripModificators, hf]
  | some m =>
    have hmem : m ∈ modificators := List.mem_of_find?_eq_some hf
    have hinc : stringIncludes s m = true := by
      have := List.find?_some hf
      simpa using this
    have hdata : ∀ x ∈ modificators, x.data ≠ ([] : List Char) := by decide
    have hne : m.data ≠ [] := hdata m hmem
    constructor
    · intro heq
      exfalso
      have hstrip : stripModificators s = splitFirst s m := by
        simp [stripModificators, hf]
      obtain ⟨p, hp⟩ : ∃ p, splitBeforeL m.data s.data = some p := by
        unfold stringIncludes at hinc
        exact Option.isSome_iff_exists.mp hinc
      have hsf : splitFirst s m = String.mk p := by
        simp [splitFirst, hp]
      have hlen : p.length < s.data.length := splitBeforeL_length m.data hne s.data p hp
      have : String.mk p = s := by
        rw [← hsf, ← hstrip]
        exact heq
      have hpd : p = s.data := congrArg String.data this
      rw [hpd] at hlen
      exact Nat.lt_irrefl _ hlen
    · intro hall
      exact absurd hinc (by simp [hall m hmem])

/-- Claim C5 counterexample: stripping is not idempotent on the raw name
`w_loop_next`, which combines the loop and next modifier tokens.  The first
strip finds `_next` (checked first) and keeps `w_loop`, which still carries
`_loop`, so a second strip shortens it to `w`. -/
theorem stripModificators_not_idempotent :
    stripModificators (stripModificators "w_loop_next") ≠ stripModificators "w_loop_next" := by
  decide

/-- Claim C5, amended: stripping a raw clip name twice gives the same result
as stripping once exactly when the once-stripped name no longer contains any
recognized modifier token.  Names carrying several combined modifier tokens
can violate this (see the counterexample), because only the first recognized
token and everything after it is removed, and the kept part may itself contain
a later-checked token. -/
theorem stripModificators_idempotent_iff (raw : String) :
    stripModificators (stripModificators raw) = stripModificators raw ↔
      ∀ m ∈ modificators, stringIncludes (stripModificators raw) m = false :=
  stripModificators_fixed_iff (stripModificators raw)

/-- Claim C10: `reset()` clears the spine map, the animation registry, the
text map and the container children, but leaves the state-group index and the
active/looping track-bookkeeping maps untouched, so the state groups queryable
through `getAnimationsStates` after a reset are exactly those queryable
before, and recorded track entries survive the reset. -/
theorem reset_clears_and_preserves (e : SpineLayout) :
    (reset e).spines = [] ∧ (reset e).animations = [] ∧ (reset e).texts = [] ∧
      (reset e).children = [] ∧
      (reset e).statesAnimations = e.statesAnimations ∧
      (reset e).activeAnimations = e.activeAnimations ∧
      (reset e).loopingAnimations = e.loopingAnimations ∧
      getAnimationsStates (reset e) = getAnimationsStates e :=
  ⟨rfl, rfl, rfl, rfl, rfl, rfl, rfl, rfl⟩

/-- Rig used by the claim C2 evaluation: one rig with a one-shot clip `a` and
a looping clip `b_loop`. -/
def c2Layout : SpineLayout := addSpineInstance emptySpineLayout "r" ⟨["a", "b_loop"], []⟩

/-- Claim C2 state after playing `a` once: `a` is booked on track 0. -/
def c2AfterA : SpineLayout := (playInstanceAnimation c2Layout "r" "a").state

/-- Claim C2 state after additionally playing `b_loop` once: `b_loop` is
booked on track 1 in the looping map. -/
def c2AfterB : SpineLayout := (playInstanceAnimation c2AfterA "r" "b_loop").state

/-- Claim C2 (code bug), evaluated at the failing inputs: replaying clip `a`
while it is still booked on track 0 is not detected (the idempotence test uses
JavaScript truthiness, and track id 0 is falsy), so a second
`setAnimation(1, "a", false)` is issued; replaying the looping clip `b_loop`
while it is booked in the looping map is not detected either (only the active
map is consulted), so a second `setAnimation(2, "b_loop", true)` is issued.
The documented behavior — an already-playing clip resolves immediately with no
second `setTrack` — fails in both cases. -/
theorem playInstanceAnimation_replay_reissues_setTrack :
    (playInstanceAnimation c2AfterA "r" "a").outcome = .started 1 false ∧
    (playInstanceAnimation c2AfterA "r" "a").setTrackCalls = [("r", 1, "a", false)] ∧
    (playInstanceAnimation c2AfterB "r" "b_loop").setTrackCalls = [("r", 2, "b_loop", true)] := by
  decide

/-- Layout used by the claim C4 evaluation: the same rig id registered twice
with the same single clip `walk`. -/
def c4Layout : SpineLayout :=
  addSpineInstance (addSpineInstance emptySpineLayout "r" ⟨["walk"], []⟩) "r" ⟨["walk"], []⟩

/-- Claim C4 (code bug), evaluated at the failing input: re-registering rig
`r` exposing clip `walk` does not remove the rig's prior registry entries, so
after the replace-in-place the raw name `walk` appears twice in `r`'s list
under the base entry `walk` — the registry invariant (each raw name under
exactly one base entry and exactly once in one rig's list) is violated. -/
theorem addSpineInstance_reregister_duplicates_registry :
    alGet ((alGet c4Layout.animations "walk").getD []) "r" = some ["walk", "walk"] := by
  decide

/-- Claim C8 counterexample: looking up an unknown base name in
`playAnimationByName` ("ghost") or an unknown state name in `playState`
("nostate") resolves as a completed no-op with no `setTrack` call, but prints
no diagnostic at all — the claim's "emits a diagnostic" fails for unknown
clip and state names (only the unknown-rig path prints one). -/
theorem playUnknownName_silent_noop :
    playAnimationByNameRun emptySpineLayout "ghost" = ⟨emptySpineLayout, [], []⟩ ∧
    playStateRun emptySpineLayout "nostate" = ⟨emptySpineLayout, [], []⟩ := by
  decide

/-- Instance data used by the claim C9 evaluation: an atlas with one page
`p1` and an empty textures record, so its creation throws. -/
def c9Bad : SpineInstanceData := ⟨"bad.atlas", ["p1"], [], ["x"], []⟩

/-- Instance data used by the claim C9 evaluation: a rig that creates
fine (no atlas pages to check). -/
def c9Good : SpineInstanceData := ⟨"good.atlas", [], [], ["y"], []⟩

/-- Claim C9 counterexample: in `createInstancesFromDataArray`, the
missing-texture exception of the first entry propagates out of the `forEach`
and aborts the batch, so the second, unrelated rig `good` is never created —
the failure is not confined to the one failing rig's creation. -/
theorem createInstancesFromDataArray_abort_skips_later_rigs :
    (createInstancesFromDataArray emptySpineLayout [c9Bad, c9Good]).2 =
      some "Missing texture for page: p1" ∧
    alGet (createInstancesFromDataArray emptySpineLayout [c9Bad, c9Good]).1.spines "good" =
      none := by
  decide

/-- Claim C9, amended: `createInstanceFromData` throws exactly when some atlas
page has no matching texture in the supplied record, and it throws before any
engine map is touched, so the caller's state is unchanged; but in the batch
path the exception aborts the remaining entries of the array (they are not
created), so in `createInstancesFromDataArray` the failure does affect the
rigs listed after the failing one, while the rigs created before it keep their
entries. -/
theorem createInstanceFromData_error_iff_missing_page (e : SpineLayout)
    (d : SpineInstanceData) (rest : List SpineInstanceData) (b : Bool) :
    ((∃ msg, createInstanceFromData e d b = .error msg) ↔
      ∃ p ∈ d.pages, d.textures.contains p = false) ∧
    (∀ msg, createInstanceFromData e d true = .error msg →
      createInstancesFromDataArray e (d :: rest) = (e, some msg)) := by
  constructor
  · cases hf : d.pages.find? (fun p => !(d.textures.contains p)) with
    | none =>
      constructor
      · rintro ⟨msg, hmsg⟩
        simp only [createInstanceFromData] at hmsg
        rw [hf] at hmsg
        exact absurd hmsg (by simp)
      · rintro ⟨p, hp, hcp⟩
        have h2 := List.find?_eq_none.mp hf p hp
        have h3 : p ∉ d.textures := by simpa using hcp
        simp at h2
        exact absurd h2 h3
    | some p =>
      constructor
      · intro _
        refine ⟨p, List.mem_of_find?_eq_some hf, ?_⟩
        have := List.find?_some hf
        simpa using this
      · intro _
        refine ⟨"Missing texture for page: " ++ p, ?_⟩
        simp only [createInstanceFromData]
        rw [hf]
  · intro msg hmsg
    simp [createInstancesFromDataArray, hmsg]

/-- Claim C9 witness: the amended theorem applied to the concrete failing
batch of the counterexample's shape. -/
theorem createInstanceFromData_error_iff_missing_page_witness :
    (∃ p ∈ c9Bad.pages, c9Bad.textures.contains p = false) ∧
    createInstancesFromDataArray emptySpineLayout [c9Bad, c9Good] =
      (emptySpineLayout, some "Missing texture for page: p1") :=
  ⟨(createInstanceFromData_error_iff_missing_page emptySpineLayout c9Bad [c9Good] true).1.mp
      ⟨"Missing texture for page: p1", by rfl⟩,
    (createInstanceFromData_error_iff_missing_page emptySpineLayout c9Bad [c9Good] true).2
      "Missing texture for page: p1" (by rfl)⟩

/-- Claim C8, amended: a playback operation hitting an unknown name never
throws and issues no `setTrack` call; an unknown rig in
`playInstanceAnimation` resolves immediately after printing the
`Spine <id> not found` diagnostic, while an unknown base name in
`playAnimationByName` and an unknown state name in `playState` resolve as
completed no-ops silently (no diagnostic is printed for them). -/
theorem unknown_references_resolve_noop (e : SpineLayout) (rig a nm st : String) :
    (alGet e.spines rig = none →
      playInstanceAnimation e rig a =
        ⟨e, .missingRig, [], ["Spine " ++ rig ++ " not found"]⟩) ∧
    (alGet e.animations nm = none → playAnimationByNameRun e nm = ⟨e, [], []⟩) ∧
    (alGet e.statesAnimations st = none → playStateRun e st = ⟨e, [], []⟩) := by
  refine ⟨?_, ?_, ?_⟩
  · intro h
    simp [playInstanceAnimation, h]
  · intro h
    simp [playAnimationByNameRun, playAnimationByNameInvocations, h]
  · intro h
    simp [playStateRun, playStateMembers, h]

/-- Claim C8 witness: the amended theorem applied at the fresh layout, where
every rig, clip and state name is unknown. -/
theorem unknown_references_resolve_noop_witness :
    alGet emptySpineLayout.spines "r" = none ∧
    playInstanceAnimation emptySpineLayout "r" "a" =
      ⟨emptySpineLayout, .missingRig, [], ["Spine r not found"]⟩ ∧
    playAnimationByNameRun emptySpineLayout "walk" = ⟨emptySpineLayout, [], []⟩ ∧
    playStateRun emptySpineLayout "intro" = ⟨emptySpineLayout, [], []⟩ :=
  ⟨rfl,
    (unknown_references_resolve_noop emptySpineLayout "r" "a" "walk" "intro").1 rfl,
    (unknown_references_resolve_noop emptySpineLayout "r" "a" "walk" "intro").2.1 rfl,
    (unknown_references_resolve_noop emptySpineLayout "r" "a" "walk" "intro").2.2 rfl⟩

/-- Claim C6 counterexample: the empty queue entry does not start with
`state_`, so it is dispatched to `playAnimationByName` and produces a plain
base dispatch event — no `console.warn` diagnostic appears in the trace, and
the dispatch itself prints nothing either (the registry has no empty base
name), contradicting "an empty or unresolvable entry is skipped with a
diagnostic". -/
theorem queue_empty_entry_without_diagnostic :
    playAnimationsQueueTrace (fun _ => 0) (fun _ => 0) 0 [""] =
      [QueueEvent.baseDispatch "" 0 0] ∧
    (playAnimationByNameRun emptySpineLayout "").diagnostics = [] := by
  decide

theorem queue_trace_head_start (sd bd : String → Nat) (t : Nat) (q : List String) :
    ∀ ev ∈ (playAnimationsQueueTrace sd bd t q).head?, eventStart ev = t := by
  cases q with
  | nil =>
    intro ev h
    simp [playAnimationsQueueTrace] at h
  | cons entry rest =>
    intro ev h
    simp only [playAnimationsQueueTrace] at h
    by_cases h1 : strStartsWith entry folderPointerState
    · rw [if_pos h1] at h
      cases hs : getStateName entry with
      | none =>
        rw [hs] at h
        simp at h
        rw [← h]
        rfl
      | some s =>
        rw [hs] at h
        by_cases h2 : s = ""
        · simp [h2] at h
          rw [← h]
          rfl
        · simp [h2] at h
          rw [← h]
          rfl
    · rw [if_neg h1] at h
      simp at h
      rw [← h]
      rfl

theorem queue_trace_spec (sd bd : String → Nat) :
    ∀ (q : List String) (t : Nat),
      List.Forall₂ (routesEntry sd bd) q (playAnimationsQueueTrace sd bd t q) ∧
      List.Chain' (fun a b => eventStart b = eventEnd a) (playAnimationsQueueTrace sd bd t q) := by
  intro q
  induction q with
  | nil =>
    intro t
    constructor
    · exact List.Forall₂.nil
    · simp [playAnimationsQueueTrace]
  | cons entry rest ih =>
    intro t
    by_cases h1 : strStartsWith entry folderPointerState
    · cases hs : getStateName entry with
      | none =>
        have htr : playAnimationsQueueTrace sd bd t (entry :: rest) =
            .skipWarn entry t :: playAnimationsQueueTrace sd bd t rest := by
          simp only [playAnimationsQueueTrace, if_pos h1, hs]
        rw [htr]
        constructor
        · refine List.Forall₂.cons ?_ (ih t).1
          simp only [routesEntry, if_pos h1, hs]
          exact ⟨t, rfl⟩
        · refine List.chain'_cons'.mpr ⟨?_, (ih t).2⟩
          intro y hy
          have := queue_trace_head_start sd bd t rest y hy
          simpa [eventEnd] using this
      | some s =>
        by_cases h2 : s = ""
        · have htr : playAnimationsQueueTrace sd bd t (entry :: rest) =
              .skipWarn entry t :: playAnimationsQueueTrace sd bd t rest := by
            simp only [playAnimationsQueueTrace, if_pos h1, hs, if_pos h2]
          rw [htr]
          constructor
          · refine List.Forall₂.cons ?_ (ih t).1
            simp only [routesEntry, if_pos h1, hs, if_pos h2]
            exact ⟨t, rfl⟩
          · refine List.chain'_cons'.mpr ⟨?_, (ih t).2⟩
            intro y hy
            have := queue_trace_head_start sd bd t rest y hy
            simpa [eventEnd] using this
        · have htr : playAnimationsQueueTrace sd bd t (entry :: rest) =
              .stateDispatch s t (t + sd s) ::
                playAnimationsQueueTrace sd bd (t + sd s) rest := by
            simp only [playAnimationsQueueTrace, if_pos h1, hs, if_neg h2]
          rw [htr]
          constructor
          · refine List.Forall₂.cons ?_ (ih (t + sd s)).1
            simp only [routesEntry, if_pos h1, hs, if_neg h2]
            exact ⟨t, rfl⟩
          · refine List.chain'_cons'.mpr ⟨?_, (ih (t + sd s)).2⟩
            intro y hy
            have := queue_trace_head_start sd bd (t + sd s) rest y hy
            simpa [eventEnd] using this
    · have htr : playAnimationsQueueTrace sd bd t (entry :: rest) =
          .baseDispatch entry t (t + bd entry) ::
            playAnimationsQueueTrace sd bd (t + bd entry) rest := by
        simp only [playAnimationsQueueTrace, if_neg h1]
      rw [htr]
      constructor
      · refine List.Forall₂.cons ?_ (ih (t + bd entry)).1
        simp only [routesEntry, if_neg h1]
        exact ⟨t, rfl⟩
      · refine List.chain'_cons'.mpr ⟨?_, (ih (t + bd entry)).2⟩
        intro y hy
        have := queue_trace_head_start sd bd (t + bd entry) rest y hy
        simpa [eventEnd] using this

/-- Claim C6, amended: `playAnimationsQueue` executes strictly sequentially —
the trace pairs each queue entry, in order, with exactly one event
(`Forall₂`, so no entry aborts the queue and each later entry still runs), a
`state_`-prefixed entry with a nonempty extracted state name is dispatched to
`playState` and every other entry to `playAnimationByName`, and each event
starts exactly when the previous entry's awaited completion resolved
(`Chain'`).  A `state_`-prefixed entry whose state name is missing or empty is
skipped with a `console.warn` diagnostic; however an empty or unknown
non-state entry is not diagnosed — it is dispatched to `playAnimationByName`
and completes as a silent no-op (see the counterexample). -/
theorem playAnimationsQueue_sequential_routing (sd bd : String → Nat) (t0 : Nat)
    (q : List String) :
    List.Forall₂ (routesEntry sd bd) q (playAnimationsQueueTrace sd bd t0 q) ∧
    List.Chain' (fun a b => eventStart b = eventEnd a) (playAnimationsQueueTrace sd bd t0 q) ∧
    (playAnimationsQueueTrace sd bd t0 q).length = q.length :=
  ⟨(queue_trace_spec sd bd q t0).1, (queue_trace_spec sd bd q t0).2,
    ((queue_trace_spec sd bd q t0).1.length_eq).symm⟩

theorem joinAll_isSome_iff (ts : List (Option Nat)) :
    (joinAll ts).isSome = true ↔ ∀ t ∈ ts, t.isSome = true := by
  induction ts with
  | nil => simp [joinAll]
  | cons t rest ih =>
    constructor
    · intro h
      have ht : t.isSome = true ∧ (joinAll rest).isSome = true := by
        cases t with
        | none => simp [joinAll, joinTwo] at h
        | some a =>
          cases hr : joinAll rest with
          | none =>
            rw [joinAll, hr] at h
            simp [joinTwo] at h
          | some b => exact ⟨rfl, by simp [hr]⟩
      intro u hu
      rcases List.mem_cons.mp hu with h1 | h1
      · subst h1
        exact ht.1
      · exact (ih.mp ht.2) u h1
    · intro h
      have ht : t.isSome = true := h t (by simp)
      have hrs : (joinAll rest).isSome = true := ih.mpr (fun u hu => h u (by simp [hu]))
      obtain ⟨a, ha⟩ := Option.isSome_iff_exists.mp ht
      obtain ⟨b, hb⟩ := Option.isSome_iff_exists.mp hrs
      rw [joinAll, ha, hb]
      simp [joinTwo]

theorem joinAll_le (ts : List (Option Nat)) :
    ∀ y, joinAll ts = some y → ∀ t ∈ ts, ∀ x, t = some x → x ≤ y := by
  induction ts with
  | nil => simp
  | cons t rest ih =>
    intro y hy u hu x hx
    cases t with
    | none => simp [joinAll, joinTwo] at hy
    | some a =>
      cases hr : joinAll rest with
      | none => simp [joinAll, hr, joinTwo] at hy
      | some b =>
        simp only [joinAll, hr, joinTwo] at hy
        simp at hy
        rcases List.mem_cons.mp hu with h1 | h1
        · subst h1
          simp at hx
          subst hx
          rw [← hy]
          exact le_max_left a b
        · have := ih b hr u h1 x hx
          rw [← hy]
          exact le_trans this (le_max_right a b)

theorem joinAll_le_of_bound (ts : List (Option Nat)) :
    ∀ y, (∀ t ∈ ts, ∀ v, t = some v → v ≤ y) → ∀ x, joinAll ts = some x → x ≤ y := by
  induction ts with
  | nil =>
    intro y _ x hx
    simp [joinAll] at hx
    simp [← hx]
  | cons t rest ih =>
    intro y hb x hx
    cases t with
    | none => simp [joinAll, joinTwo] at hx
    | some a =>
      cases hr : joinAll rest with
      | none => simp [joinAll, hr, joinTwo] at hx
      | some b =>
        simp only [joinAll, hr, joinTwo] at hx
        simp at hx
        have ha : a ≤ y := hb (some a) (by simp) a rfl
        have hbs : b ≤ y := ih y (fun u hu v hv => hb u (by simp [hu]) v hv) b hr
        rw [← hx]
        exact max_le ha hbs

/-- Claim C3: the `playAnimationByName(base)` completion promise is the
all-complete join of its fan-out — it resolves exactly when every
per-(rigID, raw name) invocation promise has resolved (never while any is
pending) and not before any of them; and one level up, the `playState` promise
resolves exactly when every member base name's fan-out has resolved and only
after each member's own join. -/
theorem play_fanout_all_complete_join (e : SpineLayout) (base s : String)
    (τ : String × String → Option Nat) :
    ((playAnimationByNameTime e base τ).isSome = true ↔
      ∀ inv ∈ playAnimationByNameInvocations e base, (τ inv).isSome = true) ∧
    (∀ inv ∈ playAnimationByNameInvocations e base, ∀ x y,
      τ inv = some x → playAnimationByNameTime e base τ = some y → x ≤ y) ∧
    ((playStateTime e s τ).isSome = true ↔
      ∀ m ∈ playStateMembers e s, (playAnimationByNameTime e m τ).isSome = true) ∧
    (∀ m ∈ playStateMembers e s, ∀ x y,
      playAnimationByNameTime e m τ = some x → playStateTime e s τ = some y → x ≤ y) := by
  refine ⟨?_, ?_, ?_, ?_⟩
  · rw [playAnimationByNameTime, joinAll_isSome_iff]
    constructor
    · intro h inv hinv
      exact h (τ inv) (List.mem_map_of_mem τ hinv)
    · intro h u hu
      obtain ⟨inv, hinv, rfl⟩ := List.mem_map.mp hu
      exact h inv hinv
  · intro inv hinv x y hx hy
    exact joinAll_le _ y hy (τ inv) (List.mem_map_of_mem τ hinv) x hx
  · rw [playStateTime, joinAll_isSome_iff]
    constructor
    · intro h m hm
      rw [playAnimationByNameTime, joinAll_isSome_iff]
      intro u hu
      obtain ⟨inv, hinv, rfl⟩ := List.mem_map.mp hu
      exact h (τ inv) (List.mem_map_of_mem τ (List.mem_flatMap.mpr ⟨m, hm, hinv⟩))
    · intro h u hu
      obtain ⟨inv, hinv, rfl⟩ := List.mem_map.mp hu
      obtain ⟨m, hm, hminv⟩ := List.mem_flatMap.mp hinv
      have := (joinAll_isSome_iff ((playAnimationByNameInvocations e m).map τ)).mp (h m hm)
      exact this (τ inv) (List.mem_map_of_mem τ hminv)
  · intro m hm x y hx hy
    refine joinAll_le_of_bound _ y ?_ x hx
    intro u hu v hv
    obtain ⟨inv, hinv, rfl⟩ := List.mem_map.mp hu
    exact joinAll_le _ y hy (τ inv)
      (List.mem_map_of_mem τ (List.mem_flatMap.mpr ⟨m, hm, hinv⟩)) v hv

/-- Layout used by the claim C3 witness: one rig `A` exposing the clip
`walk`. -/
def c3Layout : SpineLayout := addSpineInstance emptySpineLayout "A" ⟨["walk"], []⟩

/-- Claim C3 witness: the all-complete-join theorem applied at a concrete
one-rig registry with every invocation promise resolving at time 3. -/
theorem play_fanout_all_complete_join_witness :
    ("A", "walk") ∈ playAnimationByNameInvocations c3Layout "walk" ∧
    playAnimationByNameTime c3Layout "walk" (fun _ => some 3) = some 3 ∧
    (3 : Nat) ≤ 3 :=
  ⟨by decide, by decide,
    (play_fanout_all_complete_join c3Layout "walk" "st" (fun _ => some 3)).2.1
      ("A", "walk") (by decide) 3 3 rfl (by decide)⟩

theorem takeWhile_all (p : Char → Bool) :
    ∀ l : List Char, (∀ c ∈ l, p c = true) → l.takeWhile p = l := by
  intro l
  induction l with
  | nil => intro _; rfl
  | cons c t ih =>
    intro h
    have hc := h c (by simp)
    simp [List.takeWhile_cons, hc, ih (fun d hd => h d (by simp [hd]))]

theorem parseNextL_of_marker (t : List Char) (ht : t ≠ []) (hw : ∀ c ∈ t, isWordChar c = true) :
    ∀ pre : List Char, 'n' ∉ pre → parseNextL (pre ++ nextMarker ++ t) = some t := by
  intro pre
  induction pre with
  | nil =>
    intro _
    have h1 : nextMarker.isPrefixOf ('n' :: (['e', 'x', 't', '_'] ++ t)) = true := by
      rw [show ('n' :: (['e', 'x', 't', '_'] ++ t)) = nextMarker ++ t from rfl,
        List.isPrefixOf_iff_prefix]
      exact List.prefix_append _ _
    have h2 : ('n' :: (['e', 'x', 't', '_'] ++ t)).drop 5 = t := rfl
    have h3 : t.takeWhile isWordChar = t := takeWhile_all isWordChar t hw
    have h4 : t.isEmpty = false := by
      cases t with
      | nil => exact absurd rfl ht
      | cons a l => rfl
    show parseNextL ('n' :: (['e', 'x', 't', '_'] ++ t)) = some t
    simp only [parseNextL]
    rw [h1, h2, h3, h4]
    simp
  | cons c pre' ih =>
    intro hn
    have hcn : c ≠ 'n' := by
      intro h
      exact hn (by rw [h]; exact List.mem_cons_self _ _)
    have hc : ('n' == c) = false := beq_eq_false_iff_ne.mpr (Ne.symm hcn)
    have hn' : 'n' ∉ pre' := fun h => hn (List.mem_cons_of_mem _ h)
    show parseNextL (c :: (pre' ++ nextMarker ++ t)) = some t
    simp only [parseNextL]
    have hpre : nextMarker.isPrefixOf (c :: (pre' ++ nextMarker ++ t)) = false := by
      show (('n' :: ['e', 'x', 't', '_']).isPrefixOf (c :: (pre' ++ nextMarker ++ t))) = false
      simp [List.isPrefixOf, hc]
    rw [hpre, Bool.false_and, if_neg (by decide : ¬ (false = true))]
    exact ih hn'

/-- Layout used by the claim C7 evaluation: rig `r` exposes the chained raw
clip `a_next_b_speed_2` (registered under base `a`) and the target clip
`b_speed_2` (registered under base `b`). -/
def c7Layout : SpineLayout :=
  addSpineInstance emptySpineLayout "r" ⟨["a_next_b_speed_2", "b_speed_2"], []⟩

/-- Claim C7 state after playing the chained clip. -/
def c7AfterPlay : SpineLayout := (playInstanceAnimation c7Layout "r" "a_next_b_speed_2").state

/-- Claim C7 counterexample: when the `next` modifier is combined with a later
modifier, the greedy `\w+` of `/next_(\w+)_?/` swallows the following modifier
token — `parseNext` returns `b_speed_2`, not the target base name `b` — so the
completion-time fan-out looks up the raw string `b_speed_2` in the base-name
registry, finds nothing, and issues no `setTrack` for the chained target even
though base `b` has the registered clip `b_speed_2`. -/
theorem completeInstanceAnimation_chained_target_missed :
    parseNext "a_next_b_speed_2" = some "b_speed_2" ∧
    stripModificators "b_speed_2" = "b" ∧
    playAnimationByNameInvocations c7Layout "b" = [("r", "b_speed_2")] ∧
    (completeInstanceAnimation c7AfterPlay "r" "a_next_b_speed_2").setTrackCalls = [] := by
  decide

/-- Claim C7, amended: `parseNext` extracts the maximal word-character run
following the first `next_` marker of the raw name (proved here for any name
`pre ++ next_ ++ t` whose part before the marker contains no `n`, a sufficient
condition for the marker found to be the intended one); this equals the
chained target base name only when nothing but the target's word characters
follows the marker — a further modifier token after the target is swallowed
into the extracted string (see the counterexample).  When the completion event
fires, the listener releases the bookkeeping entry (afterwards the raw name is
no longer booked in the rig's active map) and the `.then` continuation fans
the extracted string out through `playAnimationByName` on the released
state. -/
theorem playNext_extraction_and_completion :
    (∀ pre t, 'n' ∉ pre → t ≠ [] → (∀ c ∈ t, isWordChar c = true) →
      parseNextL (pre ++ nextMarker ++ t) = some t) ∧
    (∀ (e : SpineLayout) (rig raw : String),
      alGet ((alGet (removeActiveAnimation e rig raw).activeAnimations rig).getD []) raw =
        none) ∧
    (∀ (e : SpineLayout) (rig raw n : String),
      stringIncludes raw "_next" = true → parseNext raw = some n →
      completeInstanceAnimation e rig raw =
        playAnimationByNameRun (removeActiveAnimation e rig raw) n) := by
  refine ⟨?_, ?_, ?_⟩
  · intro pre t hn ht hw
    exact parseNextL_of_marker t ht hw pre hn
  · intro e rig raw
    by_cases hs : (alGet ((alGet e.activeAnimations rig).getD []) raw).isSome = true
    · simp only [removeActiveAnimation, if_pos hs]
      rw [alGet_set_self]
      simp [alGet_delete_self]
    · simp only [removeActiveAnimation, if_neg hs]
      exact Option.not_isSome_iff_eq_none.mp (by simpa using hs)
  · intro e rig raw n hin hpn
    simp [completeInstanceAnimation, hin, hpn]

/-- Claim C7 witness: the amended theorem applied at concrete inputs — the
extraction lemma at `a_ ++ next_ ++ b` and the completion behavior at the
clip `x_next_y` on the fresh layout. -/
theorem playNext_extraction_and_completion_witness :
    parseNextL (['a', '_'] ++ nextMarker ++ ['b']) = some ['b'] ∧
    parseNext "a_next_b" = some "b" ∧
    completeInstanceAnimation emptySpineLayout "r" "x_next_y" =
      playAnimationByNameRun (removeActiveAnimation emptySpineLayout "r" "x_next_y") "y" :=
  ⟨playNext_extraction_and_completion.1 ['a', '_'] ['b'] (by decide) (by decide) (by decide),
    by decide,
    playNext_extraction_and_completion.2.2 emptySpineLayout "r" "x_next_y" "y"
      (by decide) (by decide)⟩

/-- A single play call as a state step, for folding play sequences. -/
def playStep (e : SpineLayout) (p : String × String) : SpineLayout :=
  (playInstanceAnimation e p.1 p.2).state

theorem playStep_effect (e : SpineLayout) (r a : String)
    (hfresh : ∀ q ∈ combinedTracks e r, q.1 ≠ a) :
    playStep e (r, a) = e ∨
    ((∀ s, s ≠ r → combinedTracks (playStep e (r, a)) s = combinedTracks e s) ∧
      (combinedTracks (playStep e (r, a)) r =
          ((alGet e.activeAnimations r).getD [] ++ [(a, (combinedTracks e r).length)]) ++
            (alGet e.loopingAnimations r).getD [] ∨
        combinedTracks (playStep e (r, a)) r =
          combinedTracks e r ++ [(a, (combinedTracks e r).length)])) := by
  have hA : alGet ((alGet e.activeAnimations r).getD []) a = none :=
    alGet_eq_none_of_fresh _ _ (fun p hp => hfresh p (List.mem_append_left _ hp))
  have hL : alGet ((alGet e.loopingAnimations r).getD []) a = none :=
    alGet_eq_none_of_fresh _ _ (fun p hp => hfresh p (List.mem_append_right _ hp))
  have hlen : (combinedTracks e r).length =
      ((alGet e.activeAnimations r).getD []).length +
        ((alGet e.loopingAnimations r).getD []).length := by
    simp [combinedTracks]
  cases hsp : alGet e.spines r with
  | none =>
    left
    simp [playStep, playInstanceAnimation, hsp]
  | some rig =>
    have hcheck : truthyTrack (alGet ((alGet e.activeAnimations r).getD []) a) = false := by
      rw [hA]
      rfl
    have hstep : playStep e (r, a) =
        (if (modificators.filter (fun m => stringIncludes a m)).contains "_loop"
          then addLoopingAnimation e r a
            (((alGet e.activeAnimations r).getD []).length +
              ((alGet e.loopingAnimations r).getD []).length)
          else addActiveAnimation e r a
            (((alGet e.activeAnimations r).getD []).length +
              ((alGet e.loopingAnimations r).getD []).length)) := by
      simp only [playStep, playInstanceAnimation, hsp, hcheck]
      simp
    right
    by_cases hloop : (modificators.filter (fun m => stringIncludes a m)).contains "_loop" = true
    · rw [if_pos hloop] at hstep
      constructor
      · intro s hs
        rw [hstep]
        simp only [addLoopingAnimation, combinedTracks]
        rw [alGet_set_ne _ _ _ _ hs]
      · right
        rw [hstep]
        simp only [addLoopingAnimation, combinedTracks]
        rw [alGet_set_self, alSet_of_get_none _ _ _ hL]
        simp [hlen, combinedTracks]
    · rw [if_neg hloop] at hstep
      constructor
      · intro s hs
        rw [hstep]
        simp only [addActiveAnimation, combinedTracks]
        rw [alGet_set_ne _ _ _ _ hs]
      · left
        rw [hstep]
        simp only [addActiveAnimation, combinedTracks]
        rw [alGet_set_self, alSet_of_get_none _ _ _ hA]
        simp [hlen]

/-- Invariant maintained by play-only sequences: for every rig, the booked
track indices are pairwise distinct and all below the number of booked
clips. -/
def TrackInv (e : SpineLayout) : Prop :=
  ∀ r, ((combinedTracks e r).map Prod.snd).Nodup ∧
    ∀ v ∈ (combinedTracks e r).map Prod.snd, v < (combinedTracks e r).length

theorem trackInv_fold :
    ∀ (ops : List (String × String)) (e : SpineLayout),
      TrackInv e →
      (∀ p ∈ ops, ∀ q ∈ combinedTracks e p.1, q.1 ≠ p.2) →
      ops.Pairwise (· ≠ ·) →
      TrackInv (ops.foldl playStep e) := by
  intro ops
  induction ops with
  | nil =>
    intro e hI _ _
    simpa using hI
  | cons p0 rest ih =>
    intro e hI hF hP
    obtain ⟨r, a⟩ := p0
    rw [List.foldl_cons]
    have hfresh : ∀ q ∈ combinedTracks e r, q.1 ≠ a := by
      intro q hq
      exact hF (r, a) (by simp) q hq
    have hPrest : rest.Pairwise (· ≠ ·) := hP.of_cons
    have hPhead : ∀ p ∈ rest, (r, a) ≠ p := (List.pairwise_cons.mp hP).1
    rcases playStep_effect e r a hfresh with heq | ⟨hother, hr⟩
    · rw [heq]
      exact ih e hI (fun p hp => hF p (List.mem_cons_of_mem _ hp)) hPrest
    · set n := (combinedTracks e r).length with hn
      have holdmap : ((alGet e.activeAnimations r).getD []).map Prod.snd ++
          ((alGet e.loopingAnimations r).getD []).map Prod.snd =
            (combinedTracks e r).map Prod.snd := by
        simp [combinedTracks]
      have hnodup : ((combinedTracks e r).map Prod.snd).Nodup := (hI r).1
      have hbound : ∀ v ∈ (combinedTracks e r).map Prod.snd, v < n := (hI r).2
      have hnotmem : n ∉ (combinedTracks e r).map Prod.snd := by
        intro hmem
        exact Nat.lt_irrefl n (hbound n hmem)
      have hInew : TrackInv (playStep e (r, a)) := by
        intro s
        by_cases hs : s = r
        · subst hs
          rcases hr with h1 | h1
          · rw [h1]
            have hmap : (((alGet e.activeAnimations s).getD [] ++ [(a, n)]) ++
                (alGet e.loopingAnimations s).getD []).map Prod.snd =
                  ((alGet e.activeAnimations s).getD []).map Prod.snd ++
                    n :: ((alGet e.loopingAnimations s).getD []).map Prod.snd := by
              simp
            have hlen3 : (((alGet e.activeAnimations s).getD [] ++ [(a, n)]) ++
                (alGet e.loopingAnimations s).getD []).length = n + 1 := by
              rw [hn]
              simp [combinedTracks]
              omega
            constructor
            · rw [hmap, List.nodup_middle, List.nodup_cons]
              refine ⟨?_, by rw [holdmap]; exact hnodup⟩
              rw [holdmap]
              exact hnotmem
            · intro v hv
              rw [hmap] at hv
              rw [hlen3]
              rcases List.mem_append.mp hv with h2 | h2
              · have hm : v ∈ (combinedTracks e s).map Prod.snd := by
                  rw [← holdmap]
                  exact List.mem_append_left _ h2
                exact Nat.lt_succ_of_lt (hbound v hm)
              · rcases List.mem_cons.mp h2 with h3 | h3
                · subst h3
                  exact Nat.lt_succ_self n
                · have hm : v ∈ (combinedTracks e s).map Prod.snd := by
                    rw [← holdmap]
                    exact List.mem_append_right _ h3
                  exact Nat.lt_succ_of_lt (hbound v hm)
          · rw [h1]
            have hmap : ((combinedTracks e s) ++ [(a, n)]).map Prod.snd =
                (combinedTracks e s).map Prod.snd ++ n :: [] := by
              simp
            have hlen3 : ((combinedTracks e s) ++ [(a, n)]).length = n + 1 := by
              rw [hn]
              simp
            constructor
            · rw [hmap, List.nodup_middle, List.nodup_cons]
              exact ⟨by simpa using hnotmem, by simpa using hnodup⟩
            · intro v hv
              rw [hmap] at hv
              rw [hlen3]
              rcases List.mem_append.mp hv with h2 | h2
              · exact Nat.lt_succ_of_lt (hbound v h2)
              · rcases List.mem_cons.mp h2 with h3 | h3
                · subst h3
                  exact Nat.lt_succ_self n
                · simp at h3
        · rw [hother s hs]
          exact hI s
      have hFnew : ∀ p ∈ rest, ∀ q ∈ combinedTracks (playStep e (r, a)) p.1, q.1 ≠ p.2 := by
        intro p hp q hq
        by_cases hs : p.1 = r
        · rw [hs] at hq
          have hne2 : a ≠ p.2 := by
            intro hcontr
            apply hPhead p hp
            have : (r, a) = (p.1, p.2) := by
              rw [hs, hcontr]
            simpa using this
          rcases hr with h1 | h1
          · rw [h1] at hq
            have hq2 : q ∈ combinedTracks e r ∨ q = (a, n) := by
              rcases List.mem_append.mp hq with hq1 | hq1
              · rcases List.mem_append.mp hq1 with hq3 | hq3
                · exact Or.inl (List.mem_append_left _ hq3)
                · simp at hq3
                  exact Or.inr hq3
              · exact Or.inl (List.mem_append_right _ hq1)
            rcases hq2 with hq2 | hq2
            · have := hF p (List.mem_cons_of_mem _ hp) q (by rw [hs]; exact hq2)
              exact this
            · rw [hq2]
              exact hne2
          · rw [h1] at hq
            rcases List.mem_append.mp hq with hq1 | hq1
            · exact hF p (List.mem_cons_of_mem _ hp) q (by rw [hs]; exact hq1)
            · simp at hq1
              rw [hq1]
              exact hne2
        · rw [hother p.1 hs] at hq
          exact hF p (List.mem_cons_of_mem _ hp) q hq
      exact ih (playStep e (r, a)) hInew hFnew hPrest

/-- Rig used by the claim C1 counterexample: three one-shot clips. -/
def c1Rig : SpineRig := ⟨["a", "b", "c"], []⟩

/-- Claim C1 counterexample state: register rig `r`, play `a` (track 0), play
`b` (track 1), stop `a` (releasing its bookkeeping while `b` keeps playing),
then play `c` — the new track id `|active| + |looping| = 1` collides with the
track `b` still occupies. -/
def c1State : SpineLayout :=
  (playInstanceAnimation
    (stopAnimationState
      (playInstanceAnimation
        (playInstanceAnimation (addSpineInstance emptySpineLayout "r" c1Rig) "r" "a").state
        "r" "b").state
      "r" "a")
    "r" "c").state

/-- Claim C1 counterexample: track distinctness is not an invariant of the
reachable states of the Playback Engine — after a clip is stopped while
another keeps playing, the next assignment `|active| + |looping|` reuses a
track index that is still held, so the reachable state `c1State` books both
`b` and `c` on track 1 of rig `r`. -/
theorem reachable_tracks_not_distinct :
    ¬ (∀ e : SpineLayout, Reachable e → TracksDistinct e) := by
  intro h
  have hre : Reachable c1State :=
    Reachable.play "r" "c"
      (Reachable.stop "r" "a"
        (Reachable.play "r" "b"
          (Reachable.play "r" "a" (Reachable.addSpine "r" c1Rig Reachable.init))))
  have hd := h c1State hre "r"
  have hnot : ¬ ((combinedTracks c1State "r").map Prod.snd).Nodup := by decide
  exact hnot hd

/-- Claim C1, amended: the track indices booked within one rig are pairwise
distinct as long as clips are only started — for any sequence of
`playInstanceAnimation` calls on pairwise-distinct (rig, clip) pairs starting
from empty bookkeeping, every rig's combined active+looping map holds pairwise
distinct track indices (each new clip receives `|active| + |looping|`, which
exceeds every held index).  Once a clip is stopped while others keep playing
— or a clip is redundantly replayed past the faulty already-playing test —
the next assignment can collide (see the counterexample). -/
theorem playOnly_tracks_distinct (e : SpineLayout) (ops : List (String × String))
    (hA : e.activeAnimations = []) (hL : e.loopingAnimations = [])
    (hP : ops.Pairwise (· ≠ ·)) :
    TracksDistinct (ops.foldl playStep e) := by
  have hI : TrackInv e := by
    intro r
    simp [combinedTracks, hA, hL, alGet]
  have hF : ∀ p ∈ ops, ∀ q ∈ combinedTracks e p.1, q.1 ≠ p.2 := by
    intro p _ q hq
    simp [combinedTracks, hA, hL, alGet] at hq
  have hres := trackInv_fold ops e hI hF hP
  intro r
  exact (hres r).1

/-- Claim C1 witness: the amended theorem applied to a concrete two-play
sequence on the fresh layout. -/
theorem playOnly_tracks_distinct_witness :
    emptySpineLayout.activeAnimations = [] ∧
    ([("r", "a"), ("r", "b")] : List (String × String)).Pairwise (· ≠ ·) ∧
    TracksDistinct ([("r", "a"), ("r", "b")].foldl playStep emptySpineLayout) :=
  ⟨rfl, by decide,
    playOnly_tracks_distinct emptySpineLayout [("r", "a"), ("r", "b")] rfl rfl (by decide)⟩
